import Mathlib

/-!
Verification of the sx_core infrastructure layer against its specification.

The development shallowly embeds the C++ sources:
* `src/common/inc/sx/utils/mpmc_queue.h`      — Reliable (MPMC) queue
* `src/common/inc/sx/utils/overwrite_queue.h` — Latest-overwrite queue
* `src/infra/src/config_manager.cpp`          — configuration store
* `src/infra/src/unified_bus.cpp`             — unified bus (data + control plane)
* `src/infra/src/async_runtime.cpp`           — async runtime lifecycle

Sequential (single-caller) behaviour is modelled by pure state-passing
functions; `std::string` is modelled as `List Char`; shared-pointer payloads
are modelled by their identity (a value of an opaque element type).
-/

namespace SxCore

/-! ## Reliable (MPMC) queue — mpmc_queue.h

`MPMCQueue<T>` holds a `std::queue<T>` guarded by a mutex.  In the absence of
concurrent producers/consumers the observable state is the FIFO list of items,
front of the queue at the head of the list. -/

/-- `MPMCQueue::push`: appends the item at the back (`queue_.push`). -/
def mpmcPush (q : List α) (x : α) : List α := q ++ [x]

/-- `MPMCQueue::try_pop`: on an empty queue returns `false` (no item);
otherwise removes and returns the front item. -/
def mpmcTryPop : List α → Option (α × List α)
  | [] => none
  | x :: xs => some (x, xs)

/-- `MPMCQueue::wait_and_pop`: blocks on the condition variable until the
queue is non-empty, then removes and returns the front item.  With no other
producers present an empty queue blocks forever, modelled as `none`. -/
def mpmcWaitAndPop : List α → Option (α × List α)
  | [] => none
  | x :: xs => some (x, xs)

/-- `MPMCQueue::empty`. -/
def mpmcEmpty (q : List α) : Bool := q.isEmpty

/-- Which of the two pop entry points a caller uses. -/
inductive PopKind where
  | tryPop
  | waitPop
deriving DecidableEq, Repr

/-- Dispatch a pop of the given kind. -/
def mpmcPop : PopKind → List α → Option (α × List α)
  | .tryPop, q => mpmcTryPop q
  | .waitPop, q => mpmcWaitAndPop q

/-- Push a whole sequence of items, in order. -/
def mpmcPushAll (q : List α) (xs : List α) : List α := xs.foldl mpmcPush q

/-- Perform one pop per element of `ks`; `some (items, rest)` collects the
popped items in pop order together with the final queue state, `none` means
some pop failed to produce an item. -/
def mpmcPopSeq : List α → List PopKind → Option (List α × List α)
  | q, [] => some ([], q)
  | q, k :: ks =>
    match mpmcPop k q with
    | none => none
    | some (x, q1) =>
      match mpmcPopSeq q1 ks with
      | none => none
      | some (ys, qf) => some (x :: ys, qf)

theorem mpmcPushAll_eq_append (q xs : List α) : mpmcPushAll q xs = q ++ xs := by
  induction xs generalizing q with
  | nil => simp [mpmcPushAll]
  | cons x xs ih =>
    simp only [mpmcPushAll, List.foldl_cons] at *
    rw [ih (mpmcPush q x)]
    simp [mpmcPush]

theorem mpmcPop_cons (k : PopKind) (x : α) (xs : List α) :
    mpmcPop k (x :: xs) = some (x, xs) := by
  cases k <;> rfl

theorem mpmcPopSeq_drains (xs : List α) (ks : List PopKind)
    (h : ks.length = xs.length) : mpmcPopSeq xs ks = some (xs, []) := by
  induction xs generalizing ks with
  | nil =>
    cases ks with
    | nil => rfl
    | cons k ks => simp at h
  | cons x xs ih =>
    cases ks with
    | nil => simp at h
    | cons k ks =>
      simp only [List.length_cons, Nat.succ.injEq] at h
      simp [mpmcPopSeq, mpmcPop_cons, ih ks h]

/-- C1: executing any sequence of pushes x1…xn on a Reliable (MPMC) queue
followed by n pops (each either try_pop or wait_and_pop, with no other
producers/consumers) yields exactly x1…xn in that order, and the queue
reports empty afterwards. -/
theorem mpmc_push_then_pop_fifo {α : Type} (xs : List α) (ks : List PopKind)
    (h : ks.length = xs.length) :
    ∃ qEnd, mpmcPopSeq (mpmcPushAll [] xs) ks = some (xs, qEnd) ∧
      mpmcEmpty qEnd = true := by
  refine ⟨[], ?_, rfl⟩
  rw [mpmcPushAll_eq_append, List.nil_append]
  exact mpmcPopSeq_drains xs ks h

/-- Witness for C1 at a concrete input: three pushes, then a try_pop, a
wait_and_pop and a try_pop recover 7, 8, 9 and leave the queue empty. -/
theorem mpmc_push_then_pop_fifo_witness :
    ∃ qEnd, mpmcPopSeq (mpmcPushAll ([] : List Nat) [7, 8, 9])
        [PopKind.tryPop, PopKind.waitPop, PopKind.tryPop] = some ([7, 8, 9], qEnd) ∧
      mpmcEmpty qEnd = true :=
  mpmc_push_then_pop_fifo [7, 8, 9] [PopKind.tryPop, PopKind.waitPop, PopKind.tryPop]
    (by decide)

/-! ## Latest-overwrite queue — overwrite_queue.h

`OverwriteQueue<T>` stores at most one item (`data_` plus a `has_data_`
flag).  The observable state is `Option α`: `none` when `has_data_` is
false (a stale `data_` pointer kept after a pop is never read again before
being overwritten by the next push). -/

/-- `OverwriteQueue::push`: replaces any unread item with the new one and
marks the queue non-empty. -/
def owPush (_q : Option α) (x : α) : Option α := some x

/-- `OverwriteQueue::try_pop`: fails on an empty queue, otherwise returns the
stored item and clears `has_data_`. -/
def owTryPop : Option α → Option (α × Option α)
  | none => none
  | some v => some (v, none)

/-- `OverwriteQueue::wait_and_pop`: polls `try_pop` with a yield until it
succeeds; with no other producers an empty queue spins forever (`none`). -/
def owWaitAndPop (q : Option α) : Option (α × Option α) := owTryPop q

/-- `OverwriteQueue::empty`. -/
def owEmptyQ (q : Option α) : Bool := q.isNone

/-- Push a whole sequence of items, in order. -/
def owPushAll (q : Option α) (xs : List α) : Option α := xs.foldl owPush q

theorem owPushAll_snoc (q : Option α) (xs : List α) (v : α) :
    owPushAll q (xs ++ [v]) = some v := by
  simp [owPushAll, owPush]

/-- C2: after k ≥ 1 pushes on a Latest-overwrite queue whose last pushed
value is v, the next successful pop (try_pop or wait_and_pop) returns v and
leaves the queue empty: empty() is true and a further try_pop fails until the
next push. -/
theorem overwrite_pop_returns_last_push {α : Type} (xs : List α) (v : α) :
    owTryPop (owPushAll none (xs ++ [v])) = some (v, none) ∧
      owWaitAndPop (owPushAll none (xs ++ [v])) = some (v, none) ∧
      owEmptyQ (none : Option α) = true ∧
      owTryPop (none : Option α) = none ∧
      (∀ y : α, owTryPop (owPush none y) = some (y, none)) := by
  rw [owPushAll_snoc]
  exact ⟨rfl, rfl, rfl, rfl, fun y => rfl⟩

/-! ## Configuration document model — config_manager.cpp

The store holds a `nlohmann::json` tree.  Interior nodes are objects
(`std::map`, unique keys) or arrays; leaves are null, booleans, integers
(stored as signed 64-bit `number_integer_t` or unsigned 64-bit
`number_unsigned_t`), floating-point numbers, or strings.  Floating-point
values are modelled exactly as rationals: none of the verified properties
depends on IEEE rounding, only on the numeric type tags. -/

inductive Json where
  | null
  | boolVal (b : Bool)
  | intNum (n : Int)
  | uintNum (n : Nat)
  | floatNum (q : ℚ)
  | strVal (s : List Char)
  | arr (elems : List Json)
  | obj (fields : List (List Char × Json))

/-- `nlohmann::json::find` on an object: the unique entry for the key
(objects are `std::map`s, so keys are unique; first match models it). -/
def lookupA {β : Type} : List (List Char × β) → List Char → Option β
  | [], _ => none
  | (k, v) :: rest, key => if k = key then some v else lookupA rest key

/-- Object-key resolution step of `ConfigManager::Impl::traverse`:
`curr->is_object()` and `curr->find(token)` combined — `none` both when the
node is not an object and when the key is absent. -/
def objFind : Json → List Char → Option Json
  | Json.obj fields, key => lookupA fields key
  | _, _ => none

/-- `std::isdigit` on the token character (ASCII digits 0-9). -/
def isDigitChar (c : Char) : Bool := decide (48 ≤ c.toNat) && decide (c.toNat ≤ 57)

/-- `IsUnsignedIntegerToken`: non-empty and all digits. -/
def isUnsignedIntegerToken (s : List Char) : Bool := !s.isEmpty && s.all isDigitChar

/-- `ch - '0'` for a digit character. -/
def digitVal (c : Char) : Nat := c.toNat - 48

/-- `std::numeric_limits<std::size_t>::max()` on the 64-bit target. -/
def sizeTMax : Nat := 2 ^ 64 - 1

/-- The digit-accumulation loop of `ParseSizeTNoExcept`: guards each step
with `value > (max - digit) / 10` before computing `value * 10 + digit`. -/
def parseSizeTGo : List Char → Nat → Option Nat
  | [], v => some v
  | c :: cs, v =>
    if (sizeTMax - digitVal c) / 10 < v then none
    else parseSizeTGo cs (v * 10 + digitVal c)

/-- `ParseSizeTNoExcept`: digit check, then the guarded accumulation. -/
def parseSizeT (s : List Char) : Option Nat :=
  if isUnsignedIntegerToken s then parseSizeTGo s 0 else none

/-- One `std::getline(stream, token, '.')` split pass: fields between dots,
accumulating the current field in reverse. -/
def splitOnDotAux : List Char → List Char → List (List Char)
  | [], acc => [acc.reverse]
  | c :: cs, acc =>
    if c = '.' then acc.reverse :: splitOnDotAux cs [] else splitOnDotAux cs (c :: acc)

/-- All dot-separated fields of the path (n dots give n+1 fields). -/
def splitOnDot (s : List Char) : List (List Char) := splitOnDotAux s []

/-- The token sequence the `while (std::getline(...))` loop actually
produces: `getline` fails at end-of-stream before extracting anything, so a
single empty final field (after a trailing dot, or of the empty path) is
dropped. -/
def getlineTokens (s : List Char) : List (List Char) :=
  let fs := splitOnDot s
  if fs.getLast? = some [] then fs.dropLast else fs

/-- The token loop of `ConfigManager::Impl::traverse`: empty-token check,
then object-key resolution, then array-index resolution, else failure. -/
def traverseTokens : Json → List (List Char) → Option Json
  | curr, [] => some curr
  | curr, t :: ts =>
    if t = [] then none
    else
      match objFind curr t with
      | some child => traverseTokens child ts
      | none =>
        match curr with
        | Json.arr elems =>
          match parseSizeT t with
          | none => none
          | some idx =>
            match elems.get? idx with
            | none => none
            | some child => traverseTokens child ts
        | _ => none

/-- `ConfigManager::Impl::traverse`: tokenize the dotted path with
`std::getline` and walk the tree. -/
def traverse (root : Json) (path : List Char) : Option Json :=
  traverseTokens root (getlineTokens path)

/-! Spec-side path resolution, following the specification text: each token
resolves against an associative node as a key and against a sequential node
as a non-negative decimal index; an empty token, an overflowed index, an
out-of-range index, an absent key, or a scalar in a non-terminal position
yields "no such path". -/

/-- Numeric value of a digit string. -/
def decimalVal (s : List Char) : Nat := s.foldl (fun a c => a * 10 + digitVal c) 0

/-- Spec-side index token: a non-negative decimal numeral whose value does
not overflow the index type. -/
def specIndex (s : List Char) : Option Nat :=
  if s.isEmpty then none
  else if s.all isDigitChar then
    if decimalVal s ≤ sizeTMax then some (decimalVal s) else none
  else none

/-- Spec-side resolution of a token sequence against a document. -/
def specResolve : Json → List (List Char) → Option Json
  | node, [] => some node
  | node, t :: ts =>
    if t = [] then none
    else
      match node with
      | Json.obj fields =>
        match lookupA fields t with
        | some child => specResolve child ts
        | none => none
      | Json.arr elems =>
        match specIndex t with
        | some idx =>
          match elems.get? idx with
          | some child => specResolve child ts
          | none => none
        | none => none
      | _ => none

theorem digitVal_le_nine {c : Char} (h : isDigitChar c = true) : digitVal c ≤ 9 := by
  simp only [isDigitChar, Bool.and_eq_true, decide_eq_true_eq] at h
  simp only [digitVal]
  omega

theorem le_decFold (cs : List Char) (a : Nat) :
    a ≤ List.foldl (fun a c => a * 10 + digitVal c) a cs := by
  induction cs generalizing a with
  | nil => exact Nat.le_refl a
  | cons c cs ih =>
    simp only [List.foldl_cons]
    exact Nat.le_trans (by omega) (ih (a * 10 + digitVal c))

theorem parseSizeTGo_eq (cs : List Char) (v : Nat)
    (hd : ∀ c ∈ cs, isDigitChar c = true) (hv : v ≤ sizeTMax) :
    parseSizeTGo cs v =
      if List.foldl (fun a c => a * 10 + digitVal c) v cs ≤ sizeTMax then
        some (List.foldl (fun a c => a * 10 + digitVal c) v cs)
      else none := by
  induction cs generalizing v with
  | nil => simp [parseSizeTGo, hv]
  | cons c cs ih =>
    have hc : isDigitChar c = true := hd c (List.mem_cons_self c cs)
    have hc9 : digitVal c ≤ 9 := digitVal_le_nine hc
    have hM : sizeTMax = 2 ^ 64 - 1 := rfl
    simp only [parseSizeTGo, List.foldl_cons]
    by_cases hg : (sizeTMax - digitVal c) / 10 < v
    · have hover : sizeTMax < v * 10 + digitVal c := by omega
      have hge : v * 10 + digitVal c ≤
          List.foldl (fun a c => a * 10 + digitVal c) (v * 10 + digitVal c) cs :=
        le_decFold cs (v * 10 + digitVal c)
      simp only [if_pos hg]
      rw [if_neg (by omega)]
    · have hle : v * 10 + digitVal c ≤ sizeTMax := by omega
      simp only [if_neg hg]
      exact ih (v * 10 + digitVal c) (fun x hx => hd x (List.mem_cons_of_mem c hx)) hle

theorem parseSizeT_eq_specIndex (s : List Char) : parseSizeT s = specIndex s := by
  by_cases hne : s.isEmpty
  · have : s = [] := by cases s <;> simp_all [List.isEmpty]
    subst this
    rfl
  · by_cases hall : s.all isDigitChar
    · have htok : isUnsignedIntegerToken s = true := by
        simp [isUnsignedIntegerToken, hne, hall]
      have hd : ∀ c ∈ s, isDigitChar c = true := by
        intro c hc
        exact List.all_eq_true.mp hall c hc
      simp only [parseSizeT, htok, if_pos, specIndex, hne, hall]
      rw [parseSizeTGo_eq s 0 hd (Nat.zero_le _)]
      simp [decimalVal]
    · have htok : isUnsignedIntegerToken s = false := by
        simp [isUnsignedIntegerToken, hall]
      simp [parseSizeT, htok, specIndex, hne, hall]

theorem traverseTokens_eq_specResolve (ts : List (List Char)) (node : Json) :
    traverseTokens node ts = specResolve node ts := by
  induction ts generalizing node with
  | nil => rfl
  | cons t ts ih =>
    by_cases ht : t = []
    · simp [traverseTokens, specResolve, ht]
    · cases node with
      | obj fields =>
        simp only [traverseTokens, specResolve, if_neg ht, objFind]
        cases lookupA fields t with
        | some child => exact ih child
        | none => rfl
      | arr elems =>
        simp only [traverseTokens, specResolve, if_neg ht, objFind,
          parseSizeT_eq_specIndex]
        cases specIndex t with
        | none => rfl
        | some idx =>
          dsimp only
          cases elems.get? idx with
          | none => rfl
          | some child => exact ih child
      | null => simp [traverseTokens, specResolve, ht, objFind]
      | boolVal b => simp [traverseTokens, specResolve, ht, objFind]
      | intNum n => simp [traverseTokens, specResolve, ht, objFind]
      | uintNum n => simp [traverseTokens, specResolve, ht, objFind]
      | floatNum q => simp [traverseTokens, specResolve, ht, objFind]
      | strVal s => simp [traverseTokens, specResolve, ht, objFind]

/-- Document `{"a": 1}` used to separate the two tokenizations. -/
def docTrailingDot : Json := Json.obj [(['a'], Json.intNum 1)]

/-- C3 counterexample: on the path "a." the dot-separated token sequence is
["a", ""], whose empty token should yield "no such path" per the claim; the
code's `std::getline` loop never produces the trailing empty token, so
`traverse` resolves the path to the leaf 1 instead of failing. -/
theorem traverse_trailing_dot_counterexample :
    traverse docTrailingDot ['a', '.'] = some (Json.intNum 1) ∧
      splitOnDot ['a', '.'] = [['a'], []] ∧
      specResolve docTrailingDot (splitOnDot ['a', '.']) = none := by
  refine ⟨rfl, rfl, rfl⟩

/-- C3 (amended): path traversal resolves each token of the `getline`
tokenization — which drops a single trailing empty token, so a path ending
in a dot resolves as if the final dot were absent and the empty path
resolves to the root — against an associative node as a key and against a
sequential node as a non-negative decimal index, and it yields "no such
path" exactly when a produced token is empty, an index overflows `size_t`
or is out of range, a key is absent, or a scalar is reached in a
non-terminal position (the conditions embodied by `specResolve`). -/
theorem traverse_matches_spec_resolution (root : Json) (path : List Char) :
    traverse root path = specResolve root (getlineTokens path) :=
  traverseTokens_eq_specResolve (getlineTokens path) root

/-! ## Typed reads — ConfigManager::get and the JsonTo…NoExcept helpers -/

/-- `std::numeric_limits<int>::min()` (32-bit int target). -/
def int32Min : Int := -(2 ^ 31)

/-- `std::numeric_limits<int>::max()`. -/
def int32Max : Int := 2 ^ 31 - 1

/-- `static_cast<int64_t>` of a stored unsigned 64-bit value: values below
2^63 are preserved, larger values wrap around modulo 2^64. -/
def toInt64OfUInt64 (n : Nat) : Int :=
  if n < 2 ^ 63 then (n : Int) else (n : Int) - 2 ^ 64

/-- `node.get<nlohmann::json::number_integer_t>()` on an integer-typed node
(`is_number_integer() || is_number_unsigned()`): the stored signed value, or
the unsigned value cast to signed 64-bit. -/
def jsonIntValue : Json → Option Int
  | Json.intNum n => some n
  | Json.uintNum n => some (toInt64OfUInt64 n)
  | _ => none

/-- `JsonToIntNoExcept`: integer-typed node, value range-checked against
`int`. -/
def jsonToInt (node : Json) : Option Int :=
  match jsonIntValue node with
  | none => none
  | some v => if v < int32Min then none else if int32Max < v then none else some v

/-- `node.get<nlohmann::json::number_float_t>()` on any numeric node
(`is_number()`), modelled exactly (the double→float narrowing of
`JsonToFloatNoExcept` carries the same abstract value). -/
def jsonNumberValue : Json → Option ℚ
  | Json.intNum n => some (n : ℚ)
  | Json.uintNum n => some (n : ℚ)
  | Json.floatNum q => some q
  | _ => none

/-- `JsonToFloatNoExcept`. -/
def jsonToFloat (node : Json) : Option ℚ := jsonNumberValue node

/-- `JsonToDoubleNoExcept`. -/
def jsonToDouble (node : Json) : Option ℚ := jsonNumberValue node

/-- `JsonToBoolNoExcept`. -/
def jsonToBool : Json → Option Bool
  | Json.boolVal b => some b
  | _ => none

/-- `JsonToStringNoExcept`. -/
def jsonToString : Json → Option (List Char)
  | Json.strVal s => some s
  | _ => none

/-- The element loop of `JsonArrayToVectorNoExcept`: convert every element
in order, failing the whole vector on the first element that fails. -/
def mapAllSome (conv : Json → Option β) : List Json → Option (List β)
  | [] => some []
  | e :: es =>
    match conv e with
    | none => none
    | some x =>
      match mapAllSome conv es with
      | none => none
      | some xs => some (x :: xs)

/-- `JsonArrayToVectorNoExcept`: array check plus the element loop. -/
def jsonArrayToVector (conv : Json → Option β) : Json → Option (List β)
  | Json.arr elems => mapAllSome conv elems
  | _ => none

/-- The eight explicitly instantiated target types of `ConfigManager::get`. -/
inductive CTarget where
  | tInt
  | tFloat
  | tDouble
  | tBool
  | tString
  | tVecInt
  | tVecFloat
  | tVecString
deriving DecidableEq, Repr

/-- The Lean carrier of each target type. -/
@[reducible] def CTarget.carrier : CTarget → Type
  | .tInt => Int
  | .tFloat => ℚ
  | .tDouble => ℚ
  | .tBool => Bool
  | .tString => List Char
  | .tVecInt => List Int
  | .tVecFloat => List ℚ
  | .tVecString => List (List Char)

/-- `JsonToValueNoExcept<T>`: the `if constexpr` dispatch. -/
def jsonToValue : (t : CTarget) → Json → Option t.carrier
  | .tInt, node => jsonToInt node
  | .tFloat, node => jsonToFloat node
  | .tDouble, node => jsonToDouble node
  | .tBool, node => jsonToBool node
  | .tString, node => jsonToString node
  | .tVecInt, node => jsonArrayToVector jsonToInt node
  | .tVecFloat, node => jsonArrayToVector jsonToFloat node
  | .tVecString, node => jsonArrayToVector jsonToString node

/-- `node->is_null()`. -/
def Json.isNull : Json → Bool
  | Json.null => true
  | _ => false

/-- `ConfigManager::get<T>(key_path, default_val)`: traverse, null check,
conversion with fallback to the default. -/
def cfgGet (t : CTarget) (root : Json) (path : List Char) (d : t.carrier) : t.carrier :=
  match traverse root path with
  | none => d
  | some node => if node.isNull then d else (jsonToValue t node).getD d

/-! Spec-side conversion, following the specification text: integer leaf →
narrow to the target integer type, out-of-range → failure (amended: the
stored unsigned value is first cast to signed 64-bit, wrapping at 2^63);
numeric leaf → target floating-point, always accepted when numeric; array
leaf → vector of converted elements, any failing element poisons the whole
result. -/

/-- Integer-typed leaf (signed or unsigned storage). -/
def isIntegerLeaf : Json → Bool
  | Json.intNum _ => true
  | Json.uintNum _ => true
  | _ => false

/-- Numeric leaf (integer, unsigned or floating-point storage). -/
def isNumericLeaf : Json → Bool
  | Json.intNum _ => true
  | Json.uintNum _ => true
  | Json.floatNum _ => true
  | _ => false

/-- Boolean leaf. -/
def isBoolLeaf : Json → Bool
  | Json.boolVal _ => true
  | _ => false

/-- String leaf. -/
def isStringLeaf : Json → Bool
  | Json.strVal _ => true
  | _ => false

/-- Sequential (array) node. -/
def isArrayNode : Json → Bool
  | Json.arr _ => true
  | _ => false

/-- Elements of a sequential node. -/
def arrayElems : Json → List Json
  | Json.arr elems => elems
  | _ => []

/-- Spec-side int conversion: the signed-64 view of an integer leaf when it
lies within the target integer range. -/
def specConvInt : Json → Option Int
  | Json.intNum n => if int32Min ≤ n ∧ n ≤ int32Max then some n else none
  | Json.uintNum m =>
    if int32Min ≤ toInt64OfUInt64 m ∧ toInt64OfUInt64 m ≤ int32Max then
      some (toInt64OfUInt64 m)
    else none
  | _ => none

/-- Spec-side floating-point conversion: any numeric leaf is accepted. -/
def specConvFloat : Json → Option ℚ
  | Json.intNum n => some (n : ℚ)
  | Json.uintNum m => some (m : ℚ)
  | Json.floatNum q => some q
  | _ => none

/-- Spec-side bool conversion. -/
def specConvBool : Json → Option Bool
  | Json.boolVal b => some b
  | _ => none

/-- Spec-side string conversion. -/
def specConvString : Json → Option (List Char)
  | Json.strVal s => some s
  | _ => none

/-- Spec-side conversion for every supported target type. -/
def specConvert : (t : CTarget) → Json → Option t.carrier
  | .tInt, node => specConvInt node
  | .tFloat, node => specConvFloat node
  | .tDouble, node => specConvFloat node
  | .tBool, node => specConvBool node
  | .tString, node => specConvString node
  | .tVecInt, node =>
    match node with
    | Json.arr elems => mapAllSome specConvInt elems
    | _ => none
  | .tVecFloat, node =>
    match node with
    | Json.arr elems => mapAllSome specConvFloat elems
    | _ => none
  | .tVecString, node =>
    match node with
    | Json.arr elems => mapAllSome specConvString elems
    | _ => none

/-- The claim's enumeration of conversion-failure conditions: the leaf's
type does not convert to the target, an integer leaf is out of the target
integer range (after the signed-64 cast), or some element of an array leaf
fails conversion. -/
def specConvFails : CTarget → Json → Prop
  | .tInt, node =>
    isIntegerLeaf node = false ∨
      ∃ v, jsonIntValue node = some v ∧ (v < int32Min ∨ int32Max < v)
  | .tFloat, node => isNumericLeaf node = false
  | .tDouble, node => isNumericLeaf node = false
  | .tBool, node => isBoolLeaf node = false
  | .tString, node => isStringLeaf node = false
  | .tVecInt, node =>
    isArrayNode node = false ∨ ∃ e ∈ arrayElems node, specConvInt e = none
  | .tVecFloat, node =>
    isArrayNode node = false ∨ ∃ e ∈ arrayElems node, specConvFloat e = none
  | .tVecString, node =>
    isArrayNode node = false ∨ ∃ e ∈ arrayElems node, specConvString e = none

theorem mapAllSome_congr {β : Type} {f g : Json → Option β}
    (h : ∀ e, f e = g e) (l : List Json) : mapAllSome f l = mapAllSome g l := by
  induction l with
  | nil => rfl
  | cons e es ih => simp only [mapAllSome, h e, ih]

theorem jsonToInt_eq_specConvInt (node : Json) : jsonToInt node = specConvInt node := by
  cases node <;>
    simp only [jsonToInt, jsonIntValue, specConvInt] <;>
    split_ifs <;> first | rfl | omega

theorem jsonToFloat_eq_specConvFloat (node : Json) :
    jsonToFloat node = specConvFloat node := by
  cases node <;> rfl

theorem jsonToBool_eq_specConvBool (node : Json) : jsonToBool node = specConvBool node := by
  cases node <;> rfl

theorem jsonToString_eq_specConvString (node : Json) :
    jsonToString node = specConvString node := by
  cases node <;> rfl

theorem jsonToValue_eq_specConvert (t : CTarget) (node : Json) :
    jsonToValue t node = specConvert t node := by
  cases t with
  | tInt => exact jsonToInt_eq_specConvInt node
  | tFloat => exact jsonToFloat_eq_specConvFloat node
  | tDouble => exact jsonToFloat_eq_specConvFloat node
  | tBool => exact jsonToBool_eq_specConvBool node
  | tString => exact jsonToString_eq_specConvString node
  | tVecInt =>
    cases node <;>
      first
      | exact mapAllSome_congr jsonToInt_eq_specConvInt _
      | rfl
  | tVecFloat =>
    cases node <;>
      first
      | exact mapAllSome_congr jsonToFloat_eq_specConvFloat _
      | rfl
  | tVecString =>
    cases node <;>
      first
      | exact mapAllSome_congr jsonToString_eq_specConvString _
      | rfl

theorem mapAllSome_eq_none_iff {β : Type} (f : Json → Option β) (l : List Json) :
    mapAllSome f l = none ↔ ∃ e ∈ l, f e = none := by
  induction l with
  | nil => simp [mapAllSome]
  | cons e es ih =>
    simp only [mapAllSome, List.mem_cons]
    cases hfe : f e with
    | none =>
      exact ⟨fun _ => ⟨e, Or.inl rfl, hfe⟩, fun _ => rfl⟩
    | some x =>
      cases hrest : mapAllSome f es with
      | none =>
        refine ⟨fun _ => ?_, fun _ => rfl⟩
        obtain ⟨e1, he1, hf1⟩ := ih.mp hrest
        exact ⟨e1, Or.inr he1, hf1⟩
      | some xs =>
        constructor
        · intro hcontr
          exact absurd hcontr (by simp)
        · rintro ⟨e1, he1, hf1⟩
          rcases he1 with h | h
          · subst h
            rw [hf1] at hfe
            cases hfe
          · rw [ih.mpr ⟨e1, h, hf1⟩] at hrest
            cases hrest

theorem specConvInt_eq_none_iff (node : Json) :
    specConvInt node = none ↔
      (isIntegerLeaf node = false ∨
        ∃ v, jsonIntValue node = some v ∧ (v < int32Min ∨ int32Max < v)) := by
  cases node with
  | intNum n =>
    simp only [specConvInt, isIntegerLeaf, jsonIntValue]
    split_ifs with h
    · constructor
      · intro hc
        exact hc.elim
      · rintro (hc | ⟨v, hv, hout⟩)
        · exact hc.elim
        · injection hv with hv1
          subst hv1
          exact ((by omega : False)).elim
    · refine ⟨fun _ => Or.inr ⟨n, rfl, by omega⟩, fun _ => rfl⟩
  | uintNum m =>
    simp only [specConvInt, isIntegerLeaf, jsonIntValue]
    split_ifs with h
    · constructor
      · intro hc
        exact hc.elim
      · rintro (hc | ⟨v, hv, hout⟩)
        · exact hc.elim
        · injection hv with hv1
          subst hv1
          exact ((by omega : False)).elim
    · refine ⟨fun _ => Or.inr ⟨toInt64OfUInt64 m, rfl, by omega⟩, fun _ => rfl⟩
  | null => simp [specConvInt, isIntegerLeaf, jsonIntValue]
  | boolVal b => simp [specConvInt, isIntegerLeaf, jsonIntValue]
  | floatNum q => simp [specConvInt, isIntegerLeaf, jsonIntValue]
  | strVal s => simp [specConvInt, isIntegerLeaf, jsonIntValue]
  | arr elems => simp [specConvInt, isIntegerLeaf, jsonIntValue]
  | obj fields => simp [specConvInt, isIntegerLeaf, jsonIntValue]

theorem specConvert_eq_none_iff (t : CTarget) (node : Json) :
    specConvert t node = none ↔ specConvFails t node := by
  cases t with
  | tInt => exact specConvInt_eq_none_iff node
  | tFloat => cases node <;> simp [specConvert, specConvFloat, specConvFails, isNumericLeaf]
  | tDouble => cases node <;> simp [specConvert, specConvFloat, specConvFails, isNumericLeaf]
  | tBool => cases node <;> simp [specConvert, specConvBool, specConvFails, isBoolLeaf]
  | tString => cases node <;> simp [specConvert, specConvString, specConvFails, isStringLeaf]
  | tVecInt =>
    cases node <;>
      first
      | (simp only [specConvert, specConvFails, isArrayNode, arrayElems, reduceCtorEq,
          false_or]
         exact mapAllSome_eq_none_iff specConvInt _)
      | simp [specConvert, specConvFails, isArrayNode, arrayElems]
  | tVecFloat =>
    cases node <;>
      first
      | (simp only [specConvert, specConvFails, isArrayNode, arrayElems, reduceCtorEq,
          false_or]
         exact mapAllSome_eq_none_iff specConvFloat _)
      | simp [specConvert, specConvFails, isArrayNode, arrayElems]
  | tVecString =>
    cases node <;>
      first
      | (simp only [specConvert, specConvFails, isArrayNode, arrayElems, reduceCtorEq,
          false_or]
         exact mapAllSome_eq_none_iff specConvString _)
      | simp [specConvert, specConvFails, isArrayNode, arrayElems]

theorem specConvert_null_eq_none (t : CTarget) : specConvert t Json.null = none := by
  cases t <;> rfl

theorem isNull_false_of_specConvert_some {t : CTarget} {leaf : Json} {v : t.carrier}
    (h : specConvert t leaf = some v) : leaf.isNull = false := by
  cases leaf with
  | null => rw [specConvert_null_eq_none t] at h; cases h
  | boolVal b => rfl
  | intNum n => rfl
  | uintNum n => rfl
  | floatNum q => rfl
  | strVal s => rfl
  | arr elems => rfl
  | obj fields => rfl

/-- Document `{"a": 18446744073709551611}` — the unsigned 64-bit leaf is
2^64 − 5, far outside the range of `int`. -/
def docUnsignedWrap : Json := Json.obj [(['a'], Json.uintNum 18446744073709551611)]

/-- C4 counterexample: on an unsigned integer leaf 2^64 − 5 (out of int's
range, so the claim demands the caller's default 0), `get<int>` returns −5:
`node.get<number_integer_t>()` casts the stored unsigned value to signed
64-bit, wrapping to −5, which passes the int range check. -/
theorem cfg_get_unsigned_wrap_counterexample :
    cfgGet CTarget.tInt docUnsignedWrap ['a'] 0 = -5 ∧
      traverse docUnsignedWrap ['a'] = some (Json.uintNum 18446744073709551611) ∧
      int32Max < (18446744073709551611 : Int) := by
  refine ⟨rfl, rfl, by norm_num [int32Max]⟩

/-- C4 (amended): for every supported target type T, `get<T>(path, d)`
returns d when the path is missing, when the leaf is null, and when the
conversion fails — the leaf's type does not convert to T, an integer leaf
is out of the target integer range after its stored value is cast to signed
64-bit (unsigned values ≥ 2^63 wrap), or, for vector targets, some element
of the array leaf fails conversion; otherwise it returns the converted leaf
value, and the listed conditions characterise conversion failure exactly. -/
theorem cfg_get_default_exactly_on_failure (t : CTarget) (root : Json)
    (path : List Char) (d : t.carrier) :
    (traverse root path = none → cfgGet t root path d = d) ∧
      (∀ leaf, traverse root path = some leaf → leaf.isNull = true →
        cfgGet t root path d = d) ∧
      (∀ leaf, traverse root path = some leaf → specConvFails t leaf →
        cfgGet t root path d = d) ∧
      (∀ leaf v, traverse root path = some leaf → specConvert t leaf = some v →
        cfgGet t root path d = v) ∧
      (∀ leaf, specConvert t leaf = none ↔ specConvFails t leaf) := by
  refine ⟨?_, ?_, ?_, ?_, fun leaf => specConvert_eq_none_iff t leaf⟩
  · intro h
    simp [cfgGet, h]
  · intro leaf h hnull
    simp [cfgGet, h, hnull]
  · intro leaf h hfail
    have hconv : specConvert t leaf = none := (specConvert_eq_none_iff t leaf).mpr hfail
    by_cases hnull : leaf.isNull = true
    · simp [cfgGet, h, hnull]
    · simp only [cfgGet, h, Bool.not_eq_true] at *
      simp [hnull, jsonToValue_eq_specConvert, hconv]
  · intro leaf v h hconv
    have hnull : leaf.isNull = false := isNull_false_of_specConvert_some hconv
    simp [cfgGet, h, hnull, jsonToValue_eq_specConvert, hconv]

/-- Document `{"p": 7}` for the C4 witness. -/
def docGetWitness : Json := Json.obj [(['p'], Json.intNum 7)]

/-- Witness for C4 at concrete inputs: `get<int>("p", 0)` on `{"p": 7}`
returns 7, and `get<int>("q", 5)` returns the default 5 on the missing
path. -/
theorem cfg_get_default_exactly_on_failure_witness :
    cfgGet CTarget.tInt docGetWitness ['p'] 0 = 7 ∧
      cfgGet CTarget.tInt docGetWitness ['q'] 5 = 5 :=
  ⟨(cfg_get_default_exactly_on_failure CTarget.tInt docGetWitness ['p'] 0).2.2.2.1
      (Json.intNum 7) 7 rfl rfl,
    (cfg_get_default_exactly_on_failure CTarget.tInt docGetWitness ['q'] 5).1 rfl⟩

/-! ## ConfigManager lifecycle — load, reload, listeners

The file system (`std::ifstream`) and the JSON parser (`nlohmann::json::parse`)
are external collaborators, passed in as oracle functions `fs` (path →
contents) and `pj` (contents → tree).  Opening an empty path always fails at
the OS level, which `readFileToString` reflects.  Listener callbacks are
identified by opaque ids (the C++ null-callback guard in
`register_listener` is outside the model: all modelled callbacks are
non-null). -/

/-- The `std::errc` values `ConfigManager` uses; `invalidArgument` is the
spec's invalid-state category. -/
inductive Ec where
  | ok
  | noSuchFileOrDirectory
  | illegalByteSequence
  | invalidArgument
deriving DecidableEq, Repr

/-- `ConfigManager::Impl`: document tree, recorded path, and the
`std::map` from key path to registered callbacks (kept key-sorted). -/
structure CfgState where
  root : Json
  configPath : List Char
  listeners : List (List Char × List Nat)

/-- A fresh `ConfigManager` (default-constructed `nlohmann::json` is null,
path empty, no listeners). -/
def cfgInit : CfgState := ⟨Json.null, [], []⟩

/-- `ReadFileToString`: `std::ifstream` cannot open an empty path; other
paths defer to the file-system oracle. -/
def readFileToString (fs : List Char → Option (List Char)) (path : List Char) :
    Option (List Char) :=
  if path = [] then none else fs path

/-- `ConfigManager::load`: read, parse, then record path and replace the
tree; errors leave the state untouched and listeners are not notified. -/
def cfgLoad (fs : List Char → Option (List Char)) (pj : List Char → Option Json)
    (s : CfgState) (path : List Char) : Ec × CfgState :=
  match readFileToString fs path with
  | none => (Ec.noSuchFileOrDirectory, s)
  | some text =>
    match pj text with
    | none => (Ec.illegalByteSequence, s)
    | some j => (Ec.ok, { s with configPath := path, root := j })

/-- The reload snapshot: all callbacks of all listener buckets, in the
`std::map` iteration (key-sorted) order. -/
def registeredCallbacks (s : CfgState) : List Nat := (s.listeners.map Prod.snd).flatten

/-- `ConfigManager::reload`: empty recorded path → invalid-state error;
otherwise re-read and re-parse, replace the tree, snapshot every registered
callback and invoke each once (the returned list, in invocation order). -/
def cfgReload (fs : List Char → Option (List Char)) (pj : List Char → Option Json)
    (s : CfgState) : Ec × CfgState × List Nat :=
  if s.configPath = [] then (Ec.invalidArgument, s, [])
  else
    match readFileToString fs s.configPath with
    | none => (Ec.noSuchFileOrDirectory, s, [])
    | some text =>
      match pj text with
      | none => (Ec.illegalByteSequence, s, [])
      | some j => (Ec.ok, { s with root := j }, registeredCallbacks s)

/-- Strict weak order `std::map<std::string, …>` uses on keys
(lexicographic byte comparison). -/
def charListLt : List Char → List Char → Bool
  | [], [] => false
  | [], _ :: _ => true
  | _ :: _, [] => false
  | a :: as, b :: bs => if a < b then true else if b < a then false else charListLt as bs

/-- `listeners[key_path].push_back(cb)`: append to the key's bucket,
inserting a new bucket at its sorted position. -/
def listenersAdd : List (List Char × List Nat) → List Char → Nat →
    List (List Char × List Nat)
  | [], key, cb => [(key, [cb])]
  | (k, cbs) :: rest, key, cb =>
    if key = k then (k, cbs ++ [cb]) :: rest
    else if charListLt key k then (key, [cb]) :: (k, cbs) :: rest
    else (k, cbs) :: listenersAdd rest key cb

/-- `ConfigManager::register_listener`. -/
def registerListener (s : CfgState) (keyPath : List Char) (cb : Nat) : CfgState :=
  { s with listeners := listenersAdd s.listeners keyPath cb }

/-- C5: reload before any successful load (empty recorded path) returns the
invalid-state error, leaves the stored document unchanged, and notifies
nobody; a failed load leaves the state unchanged and a successful load
records the (necessarily non-empty) path without touching listeners; after
that, a successful reload re-reads the recorded path, replaces the tree,
and invokes every registered listener callback exactly once (each callback
instance appears in the invocation list exactly as often as it was
registered), regardless of the key path it was registered under. -/
theorem config_reload_invalid_state_and_notify_all
    (fs : List Char → Option (List Char)) (pj : List Char → Option Json)
    (s : CfgState) :
    (s.configPath = [] → cfgReload fs pj s = (Ec.invalidArgument, s, [])) ∧
      (∀ path ec s2, cfgLoad fs pj s path = (ec, s2) → ec ≠ Ec.ok → s2 = s) ∧
      (∀ path s2, cfgLoad fs pj s path = (Ec.ok, s2) →
        s2.configPath = path ∧ path ≠ [] ∧ s2.listeners = s.listeners) ∧
      (∀ text j, s.configPath ≠ [] → fs s.configPath = some text → pj text = some j →
        cfgReload fs pj s = (Ec.ok, { s with root := j }, registeredCallbacks s) ∧
          ∀ cb, (registeredCallbacks s).count cb =
            ((s.listeners.map Prod.snd).flatten).count cb) := by
  refine ⟨?_, ?_, ?_, ?_⟩
  · intro h
    simp [cfgReload, h]
  · intro path ec s2 hload hne
    by_cases hp : path = []
    · simp [cfgLoad, readFileToString, hp] at hload
      exact hload.2.symm
    · cases hfs : fs path with
      | none =>
        simp [cfgLoad, readFileToString, hp, hfs] at hload
        exact hload.2.symm
      | some text =>
        cases hpj : pj text with
        | none =>
          simp [cfgLoad, readFileToString, hp, hfs, hpj] at hload
          exact hload.2.symm
        | some j =>
          simp [cfgLoad, readFileToString, hp, hfs, hpj] at hload
          exact absurd hload.1.symm hne
  · intro path s2 hload
    by_cases hp : path = []
    · simp [cfgLoad, readFileToString, hp] at hload
    · cases hfs : fs path with
      | none =>
        simp [cfgLoad, readFileToString, hp, hfs] at hload
      | some text =>
        cases hpj : pj text with
        | none =>
          simp [cfgLoad, readFileToString, hp, hfs, hpj] at hload
        | some j =>
          simp [cfgLoad, readFileToString, hp, hfs, hpj] at hload
          have h2 : s2 = { s with root := j, configPath := path } := by
            first
            | exact hload.2.symm
            | exact hload.2
            | exact hload.symm
          subst h2
          exact ⟨rfl, hp, rfl⟩
  · intro text j hne hfs hpj
    refine ⟨?_, fun cb => rfl⟩
    simp [cfgReload, hne, readFileToString, hfs, hpj]

/-- File-system oracle for the C5 witness: only the file "c" exists. -/
def fsW : List Char → Option (List Char) :=
  fun p => if p = ['c'] then some ['t'] else none

/-- Parser oracle for the C5 witness: the text "t" parses to `true`. -/
def pjW : List Char → Option Json :=
  fun t => if t = ['t'] then some (Json.boolVal true) else none

/-- Loaded state with two listeners (id 3 under "x", id 4 under "a") for
the C5 witness. -/
def cfgStateW : CfgState :=
  registerListener (registerListener ⟨Json.boolVal true, ['c'], []⟩ ['x'] 3) ['a'] 4

/-- Witness for C5 at concrete inputs: reload on a fresh manager fails with
the invalid-state error and changes nothing; after a load and two listener
registrations, reload succeeds, replaces the tree and invokes both
callbacks once (in key-sorted snapshot order). -/
theorem config_reload_invalid_state_and_notify_all_witness :
    cfgReload fsW pjW cfgInit = (Ec.invalidArgument, cfgInit, []) ∧
      cfgReload fsW pjW cfgStateW =
        (Ec.ok, { cfgStateW with root := Json.boolVal true }, [4, 3]) :=
  ⟨(config_reload_invalid_state_and_notify_all fsW pjW cfgInit).1 rfl,
    ((config_reload_invalid_state_and_notify_all fsW pjW cfgStateW).2.2.2
        ['t'] (Json.boolVal true) (by decide) rfl rfl).1⟩

/-! ## Unified bus, data plane — unified_bus.cpp

A stream topic record holds the ordered list of subscriber queues
(`IQueue<shared_ptr<void>>`: an MPMC queue or an overwrite queue of payload
references).  Payload references are values of the opaque element type `α`;
reference equality is value equality of `α`. -/

/-- A subscriber queue of one of the two disciplines, holding payload
references. -/
inductive StreamQueue (α : Type) where
  | mpmc (items : List α)
  | overwrite (latest : Option α)
deriving DecidableEq, Repr

/-- `queue->push(data)` through the `IQueue` interface. -/
def pushRef : StreamQueue α → α → StreamQueue α
  | .mpmc items, x => .mpmc (mpmcPush items x)
  | .overwrite l, x => .overwrite (owPush l x)

/-- Everything a subscriber draining the queue now would observe, in pop
order. -/
def drainQueue : StreamQueue α → List α
  | .mpmc items => items
  | .overwrite l => l.toList

/-- The most recently arrived item a subscriber observes. -/
def newestItem : StreamQueue α → Option α
  | .mpmc items => items.getLast?
  | .overwrite l => l

/-- In-place update of the (first) entry for a key in an association list
(mutation through the stored `shared_ptr<StreamTopic>`). -/
def setA {β : Type} : List (List Char × β) → List Char → β → List (List Char × β)
  | [], _, _ => []
  | (k, v) :: rest, key, nv =>
    if k = key then (k, nv) :: rest else (k, v) :: setA rest key nv

/-- `UnifiedBus::Impl::publish_stream`: no topic record → return with no
side effect; otherwise push the payload reference onto every subscriber
queue of the topic. -/
def publishStream (tbl : List (List Char × List (StreamQueue α))) (topic : List Char)
    (data : α) : List (List Char × List (StreamQueue α)) :=
  match lookupA tbl topic with
  | none => tbl
  | some qs => setA tbl topic (qs.map (fun q => pushRef q data))

/-- `UnifiedBus::Impl::subscribe_stream`: ensure the topic record exists
(`StreamMode` is a `uint8_t`: `kReliableFifo` = 0, `kRealTimeLatest` = 1);
for a recognised mode construct the queue, append it to the topic's list
and return it; for any other mode value return a null handle, leaving the
already-created record's queue list untouched. -/
def subscribeStream (tbl : List (List Char × List (StreamQueue α))) (topic : List Char)
    (mode : Nat) : Option (StreamQueue α) × List (List Char × List (StreamQueue α)) :=
  let tbl1 :=
    match lookupA tbl topic with
    | none => tbl ++ [(topic, ([] : List (StreamQueue α)))]
    | some _ => tbl
  if mode = 0 then
    let nq : StreamQueue α := .mpmc []
    (some nq, setA tbl1 topic ((lookupA tbl1 topic).getD [] ++ [nq]))
  else if mode = 1 then
    let nq : StreamQueue α := .overwrite none
    (some nq, setA tbl1 topic ((lookupA tbl1 topic).getD [] ++ [nq]))
  else (none, tbl1)

theorem lookupA_setA_self {β : Type} (tbl : List (List Char × β)) (key : List Char)
    (v : β) (h : lookupA tbl key ≠ none) : lookupA (setA tbl key v) key = some v := by
  induction tbl with
  | nil => simp [lookupA] at h
  | cons p rest ih =>
    obtain ⟨k, v0⟩ := p
    by_cases hk : k = key
    · simp [lookupA, setA, hk]
    · simp only [lookupA, setA, if_neg hk]
      exact ih (by simpa [lookupA, hk] using h)

theorem lookupA_setA_ne {β : Type} (tbl : List (List Char × β)) (key k2 : List Char)
    (v : β) (h : k2 ≠ key) : lookupA (setA tbl key v) k2 = lookupA tbl k2 := by
  induction tbl with
  | nil => rfl
  | cons p rest ih =>
    obtain ⟨k, v0⟩ := p
    by_cases hk : k = key
    · subst hk
      simp [lookupA, setA, if_neg (Ne.symm h)]
    · simp only [lookupA, setA, if_neg hk]
      by_cases hk2 : k = k2
      · simp [hk2]
      · simp [if_neg hk2, ih]

theorem lookupA_append_single {β : Type} (tbl : List (List Char × β))
    (key k2 : List Char) (v : β) :
    lookupA (tbl ++ [(key, v)]) k2 =
      match lookupA tbl k2 with
      | some w => some w
      | none => if key = k2 then some v else none := by
  induction tbl with
  | nil => rfl
  | cons p rest ih =>
    obtain ⟨k, v0⟩ := p
    by_cases hk : k = k2
    · simp [lookupA, hk]
    · simp [lookupA, if_neg hk, ih]

/-- C6: publishing a payload reference on a topic with no record (no
subscriber ever created it) is a no-op on the stream-topic table; otherwise
the reference is pushed onto every subscriber queue of that topic (other
topics untouched), each queue's newest observable item is the published
reference itself (zero-copy), and a Reliable queue appends it after its
backlog while a Latest-overwrite queue collapses to exactly it. -/
theorem publish_stream_fanout {α : Type} (tbl : List (List Char × List (StreamQueue α)))
    (topic : List Char) (data : α) :
    (lookupA tbl topic = none → publishStream tbl topic data = tbl) ∧
      (∀ qs, lookupA tbl topic = some qs →
        lookupA (publishStream tbl topic data) topic =
            some (qs.map (fun q => pushRef q data)) ∧
          (∀ t2, t2 ≠ topic →
            lookupA (publishStream tbl topic data) t2 = lookupA tbl t2) ∧
          (∀ q ∈ qs, newestItem (pushRef q data) = some data) ∧
          (∀ q ∈ qs, drainQueue (pushRef q data) =
            match q with
            | StreamQueue.mpmc items => items ++ [data]
            | StreamQueue.overwrite _ => [data])) := by
  constructor
  · intro h
    simp [publishStream, h]
  · intro qs h
    refine ⟨?_, ?_, ?_, ?_⟩
    · simp only [publishStream, h]
      exact lookupA_setA_self tbl topic _ (by simp [h])
    · intro t2 ht2
      simp only [publishStream, h]
      exact lookupA_setA_ne tbl topic t2 _ ht2
    · intro q hq
      cases q with
      | mpmc items => simp [newestItem, pushRef, mpmcPush]
      | overwrite l => rfl
    · intro q hq
      cases q with
      | mpmc items => rfl
      | overwrite l => rfl

/-- Two-subscriber topic table for the C6 witness. -/
def tblW : List (List Char × List (StreamQueue Nat)) :=
  [(['t'], [StreamQueue.mpmc [], StreamQueue.overwrite none])]

/-- Witness for C6 at concrete inputs: publishing 9 on the known topic "t"
pushes 9 onto both subscriber queues and both observe 9 itself; publishing
on the unknown topic "u" leaves the table unchanged. -/
theorem publish_stream_fanout_witness :
    lookupA (publishStream tblW ['t'] 9) ['t'] =
        some [StreamQueue.mpmc [9], StreamQueue.overwrite (some 9)] ∧
      newestItem (pushRef (StreamQueue.mpmc ([] : List Nat)) 9) = some 9 ∧
      publishStream tblW ['u'] 9 = tblW :=
  ⟨((publish_stream_fanout tblW ['t'] 9).2
      [StreamQueue.mpmc [], StreamQueue.overwrite none] rfl).1,
    (((publish_stream_fanout tblW ['t'] 9).2
        [StreamQueue.mpmc [], StreamQueue.overwrite none] rfl).2.2.1)
      (StreamQueue.mpmc []) (by simp),
    (publish_stream_fanout tblW ['u'] 9).1 rfl⟩

/-- C10: subscribe_stream with a mode value other than kReliableFifo (0)
and kRealTimeLatest (1) still creates and persists the topic's record in
the stream-topic table, appends no queue, and returns a null queue handle;
a later publish on that topic then takes the fan-out path over the empty
(or unchanged) queue list instead of the unknown-topic no-op path. -/
theorem subscribe_stream_invalid_mode {α : Type}
    (tbl : List (List Char × List (StreamQueue α))) (topic : List Char) (mode : Nat)
    (data : α) (h0 : mode ≠ 0) (h1 : mode ≠ 1) :
    (subscribeStream tbl topic mode).1 = none ∧
      lookupA (subscribeStream tbl topic mode).2 topic =
        some ((lookupA tbl topic).getD []) ∧
      (∀ t2, t2 ≠ topic →
        lookupA (subscribeStream tbl topic mode).2 t2 = lookupA tbl t2) ∧
      publishStream (subscribeStream tbl topic mode).2 topic data =
        setA (subscribeStream tbl topic mode).2 topic
          (((lookupA tbl topic).getD []).map (fun q => pushRef q data)) := by
  have hsub : subscribeStream tbl topic mode =
      (none,
        match lookupA tbl topic with
        | none => tbl ++ [(topic, ([] : List (StreamQueue α)))]
        | some _ => tbl) := by
    simp [subscribeStream, h0, h1]
  rw [hsub]
  cases hl : lookupA tbl topic with
  | none =>
    have hlook : lookupA (tbl ++ [(topic, ([] : List (StreamQueue α)))]) topic =
        some [] := by
      rw [lookupA_append_single]
      simp [hl]
    refine ⟨rfl, by simpa [hl] using hlook, ?_, ?_⟩
    · intro t2 ht2
      rw [lookupA_append_single]
      cases hl2 : lookupA tbl t2 with
      | some w => rfl
      | none => simp [if_neg (Ne.symm ht2)]
    · simp only [publishStream, hlook, hl]
      rfl
  | some qs =>
    refine ⟨rfl, by simp [hl], fun t2 _ => rfl, ?_⟩
    simp [publishStream, hl]

/-- Witness for C10 at a concrete input: mode 2 on a fresh table creates an
empty persistent record for "t", returns no queue, and a later publish fans
out over the empty list (the table keeps the record). -/
theorem subscribe_stream_invalid_mode_witness :
    (subscribeStream ([] : List (List Char × List (StreamQueue Nat))) ['t'] 2).1 =
        none ∧
      lookupA (subscribeStream ([] : List (List Char × List (StreamQueue Nat)))
          ['t'] 2).2 ['t'] = some [] :=
  ⟨(subscribe_stream_invalid_mode [] ['t'] 2 (0 : Nat) (by decide) (by decide)).1,
    (subscribe_stream_invalid_mode [] ['t'] 2 (0 : Nat) (by decide) (by decide)).2.1⟩

/-! ## Unified bus, control plane — unified_bus.cpp

Endpoint tables of the ZeroMQ control plane.  Sockets and worker threads
are identified by ids drawn from a fresh-id counter; the zmq context is a
created/not-created flag.  External zmq calls (context creation, socket
creation, bind, connect, send) may fail, so each is given a success oracle
argument; a publisher-socket slot holds `none` after `operator[]`
default-insertion or a failed bind (`pub = nullptr`), matching the C++
map's null entries. -/

/-- A control-plane receiver worker: subscriber socket, receive thread and
its stop flag. -/
structure SubWorker where
  socketId : Nat
  threadId : Nat
  stopFlag : Bool
deriving DecidableEq, Repr

/-- The control-plane half of `UnifiedBus::Impl`. -/
structure BusCtl where
  ctx : Bool
  pubSockets : List (List Char × Option Nat)
  subWorkers : List (List Char × SubWorker)
  controlTopics : List (List Char × List Nat)
  nextId : Nat
deriving DecidableEq, Repr

/-- A freshly constructed bus (no context, empty tables). -/
def busCtlInit : BusCtl := ⟨false, [], [], [], 0⟩

/-- `control_topics_[endpoint].push_back(callback)`. -/
def ctlAppend (tbl : List (List Char × List Nat)) (e : List Char) (cb : Nat) :
    List (List Char × List Nat) :=
  match lookupA tbl e with
  | none => tbl ++ [(e, [cb])]
  | some cbs => setA tbl e (cbs ++ [cb])

/-- `void*& pub = pub_sockets_[endpoint]`: `operator[]` default-inserts a
null socket slot when the endpoint is absent. -/
def ensurePubSlot (st : BusCtl) (e : List Char) : BusCtl :=
  match lookupA st.pubSockets e with
  | some _ => st
  | none => { st with pubSockets := st.pubSockets ++ [(e, (none : Option Nat))] }

/-- `UnifiedBus::Impl::publish_control`: ensure the context, default-insert
the endpoint's socket slot, create-and-bind a publisher socket if the slot
is null (a failed bind closes the socket and leaves the slot null), then
send.  Returns whether the call succeeded, alongside the new state; the
message bytes do not affect bus state. -/
def publishControl (ctxOk sockOk bindOk sendOk : Bool) (st : BusCtl) (e : List Char) :
    Bool × BusCtl :=
  if !st.ctx && !ctxOk then (false, st)
  else
    let st1 : BusCtl := { st with ctx := true }
    let st2 : BusCtl := ensurePubSlot st1 e
    match lookupA st2.pubSockets e with
    | some (some _) => (sendOk, st2)
    | _ =>
      if !sockOk then (false, st2)
      else
        let st3 : BusCtl := { st2 with nextId := st2.nextId + 1 }
        if !bindOk then (false, st3)
        else (sendOk, { st3 with pubSockets := setA st3.pubSockets e (some st2.nextId) })

/-- `UnifiedBus::Impl::subscribe_control`: ensure the context; if the
endpoint has no receiver worker, create its subscriber socket (linger 0,
100 ms receive timeout), connect (a failure closes the socket and registers
nothing), spawn the receive thread and register the worker; finally append
the callback to the endpoint's callback list. -/
def subscribeControl (ctxOk sockOk connOk : Bool) (st : BusCtl) (e : List Char)
    (cb : Nat) : Bool × BusCtl :=
  if !st.ctx && !ctxOk then (false, st)
  else
    let st1 : BusCtl := { st with ctx := true }
    match lookupA st1.subWorkers e with
    | some _ => (true, { st1 with controlTopics := ctlAppend st1.controlTopics e cb })
    | none =>
      if !sockOk then (false, st1)
      else
        let st2 : BusCtl := { st1 with nextId := st1.nextId + 1 }
        if !connOk then (false, st2)
        else
          let w : SubWorker := ⟨st1.nextId, st2.nextId, false⟩
          let st3 : BusCtl :=
            { st2 with
              nextId := st2.nextId + 1
              subWorkers := st2.subWorkers ++ [(e, w)] }
          (true, { st3 with controlTopics := ctlAppend st3.controlTopics e cb })

/-- One bus call: a control-plane publish or subscribe with its oracle
outcomes. -/
inductive CtlOp where
  | pub (e : List Char) (ctxOk sockOk bindOk sendOk : Bool)
  | sub (e : List Char) (cb : Nat) (ctxOk sockOk connOk : Bool)

/-- State transition of one call. -/
def ctlStep (st : BusCtl) : CtlOp → BusCtl
  | .pub e c s b d => (publishControl c s b d st e).2
  | .sub e cb c s k => (subscribeControl c s k st e cb).2

/-- Run a sequence of control-plane calls. -/
def runCtlOps (st : BusCtl) (ops : List CtlOp) : BusCtl := ops.foldl ctlStep st

/-- Per-endpoint uniqueness: each endpoint occurs at most once in the
publisher-socket table and at most once in the receiver-worker table. -/
def ctlInv (st : BusCtl) : Prop :=
  (st.pubSockets.map Prod.fst).Nodup ∧ (st.subWorkers.map Prod.fst).Nodup

theorem keys_setA {β : Type} (tbl : List (List Char × β)) (key : List Char) (v : β) :
    (setA tbl key v).map Prod.fst = tbl.map Prod.fst := by
  induction tbl with
  | nil => rfl
  | cons p rest ih =>
    obtain ⟨k, v0⟩ := p
    by_cases hk : k = key
    · simp [setA, hk]
    · simp [setA, if_neg hk, ih]

theorem lookupA_eq_none_iff {β : Type} (tbl : List (List Char × β)) (key : List Char) :
    lookupA tbl key = none ↔ key ∉ tbl.map Prod.fst := by
  induction tbl with
  | nil => simp [lookupA]
  | cons p rest ih =>
    obtain ⟨k, v0⟩ := p
    by_cases hk : k = key
    · subst hk
      simp only [lookupA, List.map_cons, List.mem_cons, if_true, eq_self_iff_true,
        true_or, not_true, iff_false]
      intro h
      exact Option.noConfusion h
    · simp only [lookupA, if_neg hk, List.map_cons, List.mem_cons]
      rw [ih]
      constructor
      · intro h hmem
        rcases hmem with h1 | h1
        · exact hk h1.symm
        · exact h h1
      · intro h hmem
        exact h (Or.inr hmem)

theorem publishControl_shape (c s b d : Bool) (st : BusCtl) (e : List Char) :
    (publishControl c s b d st e).2.subWorkers = st.subWorkers ∧
      (publishControl c s b d st e).2.controlTopics = st.controlTopics ∧
      ((publishControl c s b d st e).2.pubSockets.map Prod.fst =
          st.pubSockets.map Prod.fst ∨
        (lookupA st.pubSockets e = none ∧
          (publishControl c s b d st e).2.pubSockets.map Prod.fst =
            st.pubSockets.map Prod.fst ++ [e])) := by
  by_cases hctx : (!st.ctx && !c) = true
  · refine ⟨?_, ?_, Or.inl ?_⟩ <;> simp [publishControl, hctx]
  · cases hl : lookupA st.pubSockets e with
    | some slot =>
      have hens : ensurePubSlot { st with ctx := true } e = { st with ctx := true } := by
        simp [ensurePubSlot, hl]
      cases slot with
      | some sid =>
        refine ⟨?_, ?_, Or.inl ?_⟩ <;> simp [publishControl, hctx, hens, hl]
      | none =>
        by_cases hs : (!s) = true
        · refine ⟨?_, ?_, Or.inl ?_⟩ <;> simp [publishControl, hctx, hens, hl, hs]
        · by_cases hb : (!b) = true
          · refine ⟨?_, ?_, Or.inl ?_⟩ <;>
              simp [publishControl, hctx, hens, hl, hs, hb]
          · refine ⟨?_, ?_, Or.inl ?_⟩ <;>
              simp [publishControl, hctx, hens, hl, hs, hb, keys_setA]
    | none =>
      have hens : ensurePubSlot { st with ctx := true } e =
          { st with
            ctx := true
            pubSockets := st.pubSockets ++ [(e, (none : Option Nat))] } := by
        simp [ensurePubSlot, hl]
      have hl2 : lookupA (st.pubSockets ++ [(e, (none : Option Nat))]) e = some none := by
        rw [lookupA_append_single]
        simp [hl]
      by_cases hs : (!s) = true
      · refine ⟨?_, ?_, Or.inr ⟨rfl, ?_⟩⟩ <;>
          simp [publishControl, hctx, hens, hl2, hs]
      · by_cases hb : (!b) = true
        · refine ⟨?_, ?_, Or.inr ⟨rfl, ?_⟩⟩ <;>
            simp [publishControl, hctx, hens, hl2, hs, hb]
        · refine ⟨?_, ?_, Or.inr ⟨rfl, ?_⟩⟩ <;>
            simp [publishControl, hctx, hens, hl2, hs, hb, keys_setA]

theorem subscribeControl_shape (c s k : Bool) (st : BusCtl) (e : List Char) (cb : Nat) :
    (subscribeControl c s k st e cb).2.pubSockets = st.pubSockets ∧
      ((subscribeControl c s k st e cb).2.subWorkers.map Prod.fst =
          st.subWorkers.map Prod.fst ∨
        (lookupA st.subWorkers e = none ∧
          (subscribeControl c s k st e cb).2.subWorkers.map Prod.fst =
            st.subWorkers.map Prod.fst ++ [e])) := by
  by_cases hctx : (!st.ctx && !c) = true
  · refine ⟨?_, Or.inl ?_⟩ <;> simp [subscribeControl, hctx]
  · cases hl : lookupA st.subWorkers e with
    | some w =>
      refine ⟨?_, Or.inl ?_⟩ <;> simp [subscribeControl, hctx, hl]
    | none =>
      by_cases hs : (!s) = true
      · refine ⟨?_, Or.inl ?_⟩ <;> simp [subscribeControl, hctx, hl, hs]
      · by_cases hk2 : (!k) = true
        · refine ⟨?_, Or.inl ?_⟩ <;> simp [subscribeControl, hctx, hl, hs, hk2]
        · refine ⟨?_, Or.inr ⟨rfl, ?_⟩⟩ <;> simp [subscribeControl, hctx, hl, hs, hk2]

theorem ctlInv_step (st : BusCtl) (op : CtlOp) (h : ctlInv st) : ctlInv (ctlStep st op) := by
  obtain ⟨hpub, hsub⟩ := h
  cases op with
  | pub e c s b d =>
    obtain ⟨hw, -, hps⟩ := publishControl_shape c s b d st e
    constructor
    · rcases hps with heq | ⟨hnone, heq⟩
      · rw [ctlStep, heq]
        exact hpub
      · rw [ctlStep, heq]
        rw [List.nodup_append]
        refine ⟨hpub, List.nodup_singleton e, ?_⟩
        intro x hx hx2
        simp only [List.mem_singleton] at hx2
        rw [hx2] at hx
        exact (lookupA_eq_none_iff st.pubSockets e).mp hnone hx
    · rw [ctlStep, hw]
      exact hsub
  | sub e cb c s k =>
    obtain ⟨hp, hws⟩ := subscribeControl_shape c s k st e cb
    constructor
    · rw [ctlStep, hp]
      exact hpub
    · rcases hws with heq | ⟨hnone, heq⟩
      · rw [ctlStep, heq]
        exact hsub
      · rw [ctlStep, heq]
        rw [List.nodup_append]
        refine ⟨hsub, List.nodup_singleton e, ?_⟩
        intro x hx hx2
        simp only [List.mem_singleton] at hx2
        rw [hx2] at hx
        exact (lookupA_eq_none_iff st.subWorkers e).mp hnone hx

theorem ctlInv_runCtlOps (ops : List CtlOp) (st : BusCtl) (h : ctlInv st) :
    ctlInv (runCtlOps st ops) := by
  induction ops generalizing st with
  | nil => exact h
  | cons op ops ih => exact ih (ctlStep st op) (ctlInv_step st op h)

theorem publishControl_reuse (c s b d : Bool) (st : BusCtl) (e : List Char) (sid : Nat)
    (h : lookupA st.pubSockets e = some (some sid)) :
    (publishControl c s b d st e).2.pubSockets = st.pubSockets := by
  by_cases hctx : (!st.ctx && !c) = true
  · simp [publishControl, hctx]
  · have hens : ensurePubSlot { st with ctx := true } e = { st with ctx := true } := by
      simp [ensurePubSlot, h]
    simp [publishControl, hctx, hens, h]

theorem publishControl_create (d : Bool) (st : BusCtl) (e : List Char)
    (h : lookupA st.pubSockets e = none ∨ lookupA st.pubSockets e = some none) :
    lookupA (publishControl true true true d st e).2.pubSockets e =
      some (some st.nextId) := by
  have hctx : (!st.ctx && !true) = true ↔ False := by simp
  rcases h with hl | hl
  · have hens : ensurePubSlot { st with ctx := true } e =
        { st with
          ctx := true
          pubSockets := st.pubSockets ++ [(e, (none : Option Nat))] } := by
      simp [ensurePubSlot, hl]
    have hl2 : lookupA (st.pubSockets ++ [(e, (none : Option Nat))]) e = some none := by
      rw [lookupA_append_single]
      simp [hl]
    simp only [publishControl, Bool.not_true, Bool.and_false, Bool.false_eq_true,
      if_false, hens, hl2]
    exact lookupA_setA_self _ e _ (by simp [hl2])
  · have hens : ensurePubSlot { st with ctx := true } e = { st with ctx := true } := by
      simp [ensurePubSlot, hl]
    simp only [publishControl, Bool.not_true, Bool.and_false, Bool.false_eq_true,
      if_false, hens, hl]
    exact lookupA_setA_self _ e _ (by simp [hl])

theorem subscribeControl_reuse (c s k : Bool) (st : BusCtl) (e : List Char) (cb : Nat)
    (w : SubWorker) (h : lookupA st.subWorkers e = some w) :
    (subscribeControl c s k st e cb).2.subWorkers = st.subWorkers := by
  by_cases hctx : (!st.ctx && !c) = true
  · simp [subscribeControl, hctx]
  · simp [subscribeControl, hctx, h]

theorem subscribeControl_create (st : BusCtl) (e : List Char) (cb : Nat)
    (h : lookupA st.subWorkers e = none) :
    lookupA (subscribeControl true true true st e cb).2.subWorkers e =
      some ⟨st.nextId, st.nextId + 1, false⟩ := by
  simp only [subscribeControl, Bool.not_true, Bool.and_false, Bool.false_eq_true,
    if_false, h]
  rw [lookupA_append_single]
  simp [h]

/-- C7: for every control-plane endpoint, after any sequence of publish and
subscribe calls (with arbitrary zmq outcomes) the bus holds at most one
publisher-socket entry and at most one receiver-worker entry per endpoint;
a publish that finds a live socket for its endpoint reuses it, leaving the
socket table untouched; a subscribe that finds a worker reuses it, leaving
the worker table untouched; a successful publish on an endpoint with no
live socket installs a fresh one, and a successful first subscribe installs
a fresh worker (socket, thread, cleared stop flag). -/
theorem control_plane_at_most_one_socket_and_worker :
    (∀ ops : List CtlOp, ctlInv (runCtlOps busCtlInit ops)) ∧
      (∀ (st : BusCtl) (e : List Char) (sid : Nat) (c s b d : Bool),
        lookupA st.pubSockets e = some (some sid) →
          (publishControl c s b d st e).2.pubSockets = st.pubSockets) ∧
      (∀ (st : BusCtl) (e : List Char) (d : Bool),
        lookupA st.pubSockets e = none ∨ lookupA st.pubSockets e = some none →
          lookupA (publishControl true true true d st e).2.pubSockets e =
            some (some st.nextId)) ∧
      (∀ (st : BusCtl) (e : List Char) (cb : Nat) (w : SubWorker) (c s k : Bool),
        lookupA st.subWorkers e = some w →
          (subscribeControl c s k st e cb).2.subWorkers = st.subWorkers) ∧
      (∀ (st : BusCtl) (e : List Char) (cb : Nat),
        lookupA st.subWorkers e = none →
          lookupA (subscribeControl true true true st e cb).2.subWorkers e =
            some ⟨st.nextId, st.nextId + 1, false⟩) :=
  ⟨fun ops => ctlInv_runCtlOps ops busCtlInit ⟨List.nodup_nil, List.nodup_nil⟩,
    fun st e sid c s b d h => publishControl_reuse c s b d st e sid h,
    fun st e d h => publishControl_create d st e h,
    fun st e cb w c s k h => subscribeControl_reuse c s k st e cb w h,
    fun st e cb h => subscribeControl_create st e cb h⟩

/-- A bus state with a live publisher socket (id 5) on endpoint "a" for the
C7 witness. -/
def busCtlW : BusCtl := ⟨true, [(['a'], some 5)], [], [], 6⟩

/-- Witness for C7 at concrete inputs: a publish–publish–subscribe sequence
from a fresh bus keeps both endpoint tables duplicate-free, and a publish
against a live socket leaves the socket table unchanged. -/
theorem control_plane_at_most_one_socket_and_worker_witness :
    ctlInv (runCtlOps busCtlInit
        [CtlOp.pub ['a'] true true true true, CtlOp.pub ['a'] true true true true,
          CtlOp.sub ['a'] 1 true true true]) ∧
      (publishControl true true true true busCtlW ['a']).2.pubSockets =
        busCtlW.pubSockets :=
  ⟨control_plane_at_most_one_socket_and_worker.1
      [CtlOp.pub ['a'] true true true true, CtlOp.pub ['a'] true true true true,
        CtlOp.sub ['a'] 1 true true true],
    control_plane_at_most_one_socket_and_worker.2.1 busCtlW ['a'] 5 true true true true
      rfl⟩

/-! ## Async runtime lifecycle — async_runtime.cpp

`AsyncRuntime::Impl` under its lifecycle mutex: the started flag, the shared
stop flag, the installed scheduler hook (an opaque id, or absent), the two
work guards, the sizes of the three thread vectors, and whether each asio
context is in the stopped state (`stop()` sets it, `restart()` clears it).
Thread identities and the work they run are outside the sequential model;
the thread vectors are modelled by their lengths. -/

structure RtState where
  started : Bool
  stopFlag : Bool
  scheduler : Option Nat
  ioWork : Bool
  cpuWork : Bool
  ioThreads : Nat
  cpuThreads : Nat
  criticalThreads : Nat
  ioCtxStopped : Bool
  cpuCtxStopped : Bool
deriving DecidableEq, Repr

/-- A freshly constructed runtime. -/
def rtUninit : RtState := ⟨false, false, none, false, false, 0, 0, 0, false, false⟩

/-- `AsyncRuntime::init(scheduler, io_n, cpu_n)` with `hw` the platform's
`std::thread::hardware_concurrency()`: the worker counts are adjusted
first (io_n 0 → 1; cpu_n 0 → max(1, hw)); if already started nothing
changes; otherwise clear the stop flag, install the scheduler, arm both
work guards, spawn the workers (emplace onto the existing vectors) and set
started. -/
def rtInit (hw : Nat) (sched : Option Nat) (ioN cpuN : Nat) (s : RtState) : RtState :=
  let ioN1 := if ioN = 0 then 1 else ioN
  let cpuN1 := if cpuN = 0 then max 1 hw else cpuN
  if s.started then s
  else
    { s with
      stopFlag := false
      scheduler := sched
      ioWork := true
      cpuWork := true
      ioThreads := s.ioThreads + ioN1
      cpuThreads := s.cpuThreads + cpuN1
      started := true }

/-- `AsyncRuntime::stop`: a no-op unless started; otherwise
`stop_and_join_locked` sets the stop flag, resets both work guards, stops
both contexts, joins and clears all pool and critical threads, restarts
both contexts (net effect: ready to run again) and clears the started
flag. -/
def rtStop (s : RtState) : RtState :=
  if !s.started then s
  else
    { s with
      stopFlag := true
      ioWork := false
      cpuWork := false
      ioThreads := 0
      cpuThreads := 0
      criticalThreads := 0
      ioCtxStopped := false
      cpuCtxStopped := false
      started := false }

/-- C8: init transitions a non-running runtime to running, spawning
io_n workers raised to 1 when io_n = 0 and cpu_n workers defaulted to the
platform's hardware concurrency (clamped to at least 1) when cpu_n = 0,
clearing the stop flag, installing the scheduler, and arming both work
guards; calling init while already running changes nothing at all. -/
theorem async_runtime_init_defaults (hw : Nat) (sched : Option Nat) (ioN cpuN : Nat)
    (s : RtState) :
    (s.started = false →
      rtInit hw sched ioN cpuN s =
        { s with
          stopFlag := false
          scheduler := sched
          ioWork := true
          cpuWork := true
          ioThreads := s.ioThreads + (if ioN = 0 then 1 else ioN)
          cpuThreads := s.cpuThreads + (if cpuN = 0 then max 1 hw else cpuN)
          started := true } ∧
        (ioN = 0 → (rtInit hw sched ioN cpuN s).ioThreads = s.ioThreads + 1) ∧
        (cpuN = 0 →
          (rtInit hw sched ioN cpuN s).cpuThreads = s.cpuThreads + max 1 hw) ∧
        1 ≤ max 1 hw) ∧
      (s.started = true → rtInit hw sched ioN cpuN s = s) := by
  constructor
  · intro h
    refine ⟨by simp [rtInit, h], ?_, ?_, Nat.le_max_left 1 hw⟩
    · intro h0
      simp [rtInit, h, h0]
    · intro h0
      simp [rtInit, h, h0]
  · intro h
    simp [rtInit, h]

/-- A running runtime state for the C8 witness. -/
def rtRunningW : RtState := { rtUninit with started := true }

/-- Witness for C8 at concrete inputs: init from uninit with hw = 4 and
both counts 0 spawns 1 I/O and 4 CPU workers and marks the runtime running;
init on an already running runtime changes nothing. -/
theorem async_runtime_init_defaults_witness :
    rtInit 4 (some 1) 0 0 rtUninit =
      { rtUninit with
        stopFlag := false
        scheduler := some 1
        ioWork := true
        cpuWork := true
        ioThreads := 1
        cpuThreads := 4
        started := true } ∧
      rtInit 4 (some 1) 0 0 rtRunningW = rtRunningW :=
  ⟨((async_runtime_init_defaults 4 (some 1) 0 0 rtUninit).1 rfl).1,
    (async_runtime_init_defaults 4 (some 1) 0 0 rtRunningW).2 rfl⟩

/-- C9: the runtime is re-startable — stop on a non-running runtime is a
no-op; stop on a running runtime joins and clears all pool and critical
threads, resets both work guards, leaves both contexts restarted, and
clears the started flag, after which init succeeds; and from any uninit
state, init ∘ stop ∘ init yields exactly the state of a single init. -/
theorem async_runtime_restartable (hw : Nat) (sched : Option Nat) (ioN cpuN : Nat)
    (s : RtState) :
    (s.started = false → rtStop s = s) ∧
      (s.started = true →
        (rtStop s).ioThreads = 0 ∧ (rtStop s).cpuThreads = 0 ∧
          (rtStop s).criticalThreads = 0 ∧ (rtStop s).started = false ∧
          (rtStop s).ioWork = false ∧ (rtStop s).cpuWork = false ∧
          (rtStop s).ioCtxStopped = false ∧ (rtStop s).cpuCtxStopped = false ∧
          (rtInit hw sched ioN cpuN (rtStop s)).started = true) ∧
      (s.started = false → s.ioThreads = 0 → s.cpuThreads = 0 →
        s.criticalThreads = 0 → s.ioCtxStopped = false → s.cpuCtxStopped = false →
        rtInit hw sched ioN cpuN (rtStop (rtInit hw sched ioN cpuN s)) =
          rtInit hw sched ioN cpuN s) := by
  refine ⟨?_, ?_, ?_⟩
  · intro h
    simp [rtStop, h]
  · intro h
    refine ⟨?_, ?_, ?_, ?_, ?_, ?_, ?_, ?_, ?_⟩ <;> simp [rtStop, rtInit, h]
  · intro h h1 h2 h3 h4 h5
    obtain ⟨b1, b2, sc, w1, w2, n1, n2, n3, c1, c2⟩ := s
    simp only at h h1 h2 h3 h4 h5
    subst h h1 h2 h3 h4 h5
    simp [rtInit, rtStop]

/-- Witness for C9 at concrete inputs: from the uninit state with hw = 2,
a scheduler absent, io_n = 3, cpu_n = 0, init–stop–init equals a single
init, and stop on the uninit runtime is a no-op. -/
theorem async_runtime_restartable_witness :
    rtInit 2 none 3 0 (rtStop (rtInit 2 none 3 0 rtUninit)) =
        rtInit 2 none 3 0 rtUninit ∧
      rtStop rtUninit = rtUninit :=
  ⟨(async_runtime_restartable 2 none 3 0 rtUninit).2.2 rfl rfl rfl rfl rfl rfl,
    (async_runtime_restartable 2 none 3 0 rtUninit).1 rfl⟩

end SxCore
